import Mathlib

/-!
Shallow embedding of the pod YAML validator (`src/main.go`) and proofs about
its validation pass.

The Go program decodes a YAML file into a `Pod` value and runs a pure
validation pass over it, accumulating error messages (Go `[]error`, each
carrying only a message string produced by `errors.New` / `fmt.Errorf`).
We model the decoded document types field by field, and the validation
functions as pure functions returning `List String` in the exact order the
Go code appends them.

Modelling conventions:
  * Go pointer fields (`*PodOS`, `*ContainerPort`, `*Probe`) become `Option`;
    `none` is the nil pointer.
  * Go `map[string]string` becomes `Option (List (String × String))`:
    `none` is the nil map, `some l` a non-nil map whose entries, in one
    iteration order, are `l`.  Go's map iteration order is unspecified, so
    two runs over the same map may present the entries in different orders;
    the list records the order one particular run sees.  `goMapLen` is Go's
    `len`, which is `0` on a nil map.
  * Go `int` becomes `Int` (the validator only compares ports against
    0 and 65536, so word size is irrelevant).
  * `regexp.MatchString("^[a-z0-9_]+$", s)` / `^\d+$` / `^\d+(Gi|Mi|Ki)$`
    are transcribed as executable character-list predicates; Go's `\d` and
    the classes involved are ASCII-only.
-/

namespace YamlValid

/-- `ObjectMeta` of `src/main.go` (fields `name`, `namespace`, `labels`).
`namespace` is a Lean keyword, hence the field name `nspace`. -/
structure ObjectMeta where
  name : String
  nspace : String
  labels : Option (List (String × String))
deriving DecidableEq

/-- `PodOS` of `src/main.go`. -/
structure PodOS where
  name : String
deriving DecidableEq

/-- `ContainerPort` of `src/main.go`: `containerPort int`, `protocol string`.
`containerPort` is a plain Go `int`, with no absent state: a YAML document
that omits the field inside a present `ports` block decodes it to `0`. -/
structure ContainerPort where
  containerPort : Int
  protocol : String
deriving DecidableEq

/-- `HTTPGetAction` of `src/main.go`. -/
structure HTTPGetAction where
  path : String
  port : Int
deriving DecidableEq

/-- `Probe` of `src/main.go`. -/
structure Probe where
  httpGet : HTTPGetAction
deriving DecidableEq

/-- `ResourceRequirements` of `src/main.go`: two `map[string]string` fields. -/
structure ResourceRequirements where
  requests : Option (List (String × String))
  limits : Option (List (String × String))
deriving DecidableEq

/-- `Container` of `src/main.go`. -/
structure Container where
  name : String
  image : String
  ports : Option ContainerPort
  readinessProbe : Option Probe
  livenessProbe : Option Probe
  resources : ResourceRequirements
deriving DecidableEq

/-- `PodSpec` of `src/main.go`. -/
structure PodSpec where
  os : Option PodOS
  containers : List Container
deriving DecidableEq

/-- `Pod` of `src/main.go` (top level of the decoded document). -/
structure Pod where
  apiVersion : String
  kind : String
  metadata : ObjectMeta
  spec : PodSpec
deriving DecidableEq

/-- Go `len` on a possibly-nil map: `len(nil) = 0`. -/
def goMapLen : Option (List (String × String)) → Nat
  | none => 0
  | some l => l.length

/-- `strings.HasPrefix s pre`. -/
def goHasPrefix (s pre : String) : Bool :=
  pre.data.isPrefixOf s.data

/-- `strings.Contains s c` for a one-character needle. -/
def goContainsChar (s : String) (c : Char) : Bool :=
  s.data.contains c

/-- One character of the class `[a-z0-9_]` (ASCII, as in Go's regexp). -/
def snakeChar (c : Char) : Bool :=
  (('a' ≤ c && c ≤ 'z') || ('0' ≤ c && c ≤ '9') || c = '_')

/-- The match result of Go `regexp.MatchString("^[a-z0-9_]+$", s)`:
one or more characters, all in the class. -/
def matchSnake (s : String) : Bool :=
  (!s.data.isEmpty) && s.data.all snakeChar

/-- ASCII digit, Go's `\d`. -/
def digitChar (c : Char) : Bool :=
  ('0' ≤ c && c ≤ '9')

/-- Go `regexp.MatchString("^\d+$", v)` returns a pair
(match result, compile error).  The pattern is a constant, valid regex, so
the returned error is always nil (`none`); the first component is the
actual match result. -/
def goMatchDigits (v : String) : Bool × Option String :=
  ((!v.data.isEmpty) && v.data.all digitChar, none)

/-- The match result of Go `regexp.MustCompile("^\d+(Gi|Mi|Ki)$").MatchString v`:
one or more ASCII digits followed by exactly one of `Gi`, `Mi`, `Ki`. -/
def matchMemory (v : String) : Bool :=
  ["Gi", "Mi", "Ki"].any fun suf =>
    let l := v.data
    suf.data.isSuffixOf l &&
      (let base := l.take (l.length - 2)
       (!base.isEmpty) && base.all digitChar)

/-- `fmt.Errorf("container[%d]..." , index)`: the common prefix of every
per-container message. -/
def msgCtr (index : Nat) (suf : String) : String :=
  "container[" ++ toString index ++ "]" ++ suf

/-- The `// name` block of `Container.Validate` (src/main.go lines 114-120). -/
def checkName (index : Nat) (name : String) : List String :=
  if name = "" then
    [msgCtr index ".name is required"]
  else if !matchSnake name then
    [msgCtr index ".name must be snake_case"]
  else
    []

/-- The `// image` block of `Container.Validate` (src/main.go lines 122-132). -/
def checkImage (index : Nat) (image : String) : List String :=
  if image = "" then
    [msgCtr index ".image is required"]
  else
    (if !goHasPrefix image "registry.bigbrother.io/" then
      [msgCtr index ".image must be from registry.bigbrother.io"]
    else []) ++
    (if !(goContainsChar image ':') then
      [msgCtr index ".image must contain tag"]
    else [])

/-- The `// ports` block of `Container.Validate` (src/main.go lines 134-142);
the whole block is skipped when the `ports` pointer is nil. -/
def checkPorts (index : Nat) (ports : Option ContainerPort) : List String :=
  match ports with
  | none => []
  | some ps =>
    (if ps.containerPort ≤ 0 ∨ ps.containerPort ≥ 65536 then
      [msgCtr index ".ports.containerPort must be 1-65535"]
    else []) ++
    (if ps.protocol ≠ "" ∧ ps.protocol ≠ "TCP" ∧ ps.protocol ≠ "UDP" then
      [msgCtr index ".ports.protocol must be TCP or UDP"]
    else [])

/-- `Probe.Validate` (src/main.go lines 162-173). -/
def Probe.Validate (p : Probe) (index : Nat) (probeType : String) : List String :=
  (if p.httpGet.path = "" then
    [msgCtr index ("." ++ probeType ++ ".httpGet.path is required")]
  else if !goHasPrefix p.httpGet.path "/" then
    [msgCtr index ("." ++ probeType ++ ".httpGet.path must be absolute")]
  else []) ++
  (if p.httpGet.port ≤ 0 ∨ p.httpGet.port ≥ 65536 then
    [msgCtr index ("." ++ probeType ++ ".httpGet.port must be 1-65535")]
  else [])

/-- The probe dispatch of `Container.Validate` (src/main.go lines 144-150):
a nil probe pointer is skipped. -/
def checkProbe (index : Nat) (probeType : String) : Option Probe → List String
  | none => []
  | some p => p.Validate index probeType

/-- The closure `validateResourceMap` inside `ResourceRequirements.Validate`
(src/main.go lines 177-192), applied to the entries of one map in one
iteration order.  Note the `cpu` branch: the source tests the *error*
returned by `regexp.MatchString` (`if _, err := ...; err != nil`), not the
match result; the pattern is a constant valid regex, so the error is always
nil and the branch never appends a violation. -/
def validateResourceMap (index : Nat) (m : List (String × String)) (field : String) : List String :=
  m.flatMap fun kv =>
    if kv.1 = "cpu" then
      match goMatchDigits kv.2 with
      | (_, some _) => [msgCtr index (".resources." ++ field ++ ".cpu must be integer")]
      | (_, none) => []
    else if kv.1 = "memory" then
      if !matchMemory kv.2 then
        [msgCtr index (".resources." ++ field ++ ".memory must have units Gi, Mi or Ki")]
      else []
    else
      [msgCtr index (".resources." ++ field ++ " contains unknown key '" ++ kv.1 ++ "'")]

/-- `ResourceRequirements.Validate` (src/main.go lines 175-200): each of the
two maps is processed only when non-nil, requests first. -/
def ResourceRequirements.Validate (r : ResourceRequirements) (index : Nat) : List String :=
  (match r.requests with
   | some m => validateResourceMap index m "requests"
   | none => []) ++
  (match r.limits with
   | some m => validateResourceMap index m "limits"
   | none => [])

/-- The `// resources` block of `Container.Validate` (src/main.go lines
152-157): at least one of the maps must be non-empty, otherwise the maps are
validated. -/
def checkResources (index : Nat) (r : ResourceRequirements) : List String :=
  if goMapLen r.requests = 0 ∧ goMapLen r.limits = 0 then
    [msgCtr index ".resources is required"]
  else
    r.Validate index

/-- `Container.Validate` (src/main.go lines 111-160): the five field blocks
in source order, their violation lists concatenated in append order. -/
def Container.Validate (c : Container) (index : Nat) : List String :=
  checkName index c.name ++
  checkImage index c.image ++
  checkPorts index c.ports ++
  checkProbe index "readinessProbe" c.readinessProbe ++
  checkProbe index "livenessProbe" c.livenessProbe ++
  checkResources index c.resources

/-- The container loop of `Pod.Validate` (src/main.go lines 102-106):
`for i, c := range p.Spec.Containers { errs = append(errs, c.Validate(i)...) }`. -/
def validateContainers : Nat → List Container → List String
  | _, [] => []
  | i, c :: cs => c.Validate i ++ validateContainers (i + 1) cs

/-- `Pod.Validate` (src/main.go lines 78-109): the five top-level checks in
source order, then the per-container loop. -/
def Pod.Validate (p : Pod) : List String :=
  (if p.apiVersion ≠ "v1" then ["apiVersion must be 'v1'"] else []) ++
  (if p.kind ≠ "Pod" then ["kind must be 'Pod'"] else []) ++
  (if p.metadata.name = "" then ["metadata.name is required"] else []) ++
  (if p.spec.containers.length = 0 then ["spec.containers must not be empty"] else []) ++
  (match p.spec.os with
   | none => []
   | some os =>
     if os.name ≠ "linux" ∧ os.name ≠ "windows" then
       ["spec.os.name must be 'linux' or 'windows'"]
     else []) ++
  validateContainers 0 p.spec.containers

/-! ### Spec-side definitions

The following definitions follow the wording of the specification (§4.2):
the five top-level checks by name, used to compare the implementation's
output against the spec's stated ordering. -/

/-- Spec §4.2: `apiVersion` must equal the literal `v1`. -/
def checkApiVersion (v : String) : List String :=
  if v ≠ "v1" then ["apiVersion must be 'v1'"] else []

/-- Spec §4.2: `kind` must equal the literal `Pod`. -/
def checkKind (k : String) : List String :=
  if k ≠ "Pod" then ["kind must be 'Pod'"] else []

/-- Spec §4.2: `metadata.name` required (non-empty string). -/
def checkMetadataName (n : String) : List String :=
  if n = "" then ["metadata.name is required"] else []

/-- Spec §4.2: `spec.containers` must contain at least one entry. -/
def checkContainersNonEmpty (cs : List Container) : List String :=
  if cs.length = 0 then ["spec.containers must not be empty"] else []

/-- Spec §4.2: `spec.os.name`, if present, must be `linux` or `windows`. -/
def checkOS : Option PodOS → List String
  | none => []
  | some os =>
    if os.name ≠ "linux" ∧ os.name ≠ "windows" then
      ["spec.os.name must be 'linux' or 'windows'"]
    else []

/-! ### Sameness of decoded documents under Go map semantics

A Go `map[string]string` is unordered: two association lists that are
permutations of each other denote the same map, and two runs of the
validator over the same map value may see its entries in different
iteration orders.  `Pod.equivDoc` says two `Pod` values denote the same
decoded document: equal everywhere, with resource maps equal as maps. -/

/-- Two possibly-nil Go maps are the same map: both nil, or entry lists
that are permutations of each other. -/
def mapEquiv : Option (List (String × String)) → Option (List (String × String)) → Prop
  | none, none => True
  | some a, some b => a.Perm b
  | _, _ => False

/-- Two `Container` values denote the same decoded container. -/
def Container.equivDoc (c d : Container) : Prop :=
  c.name = d.name ∧ c.image = d.image ∧ c.ports = d.ports ∧
  c.readinessProbe = d.readinessProbe ∧ c.livenessProbe = d.livenessProbe ∧
  mapEquiv c.resources.requests d.resources.requests ∧
  mapEquiv c.resources.limits d.resources.limits

/-- Two `Pod` values denote the same decoded document. -/
def Pod.equivDoc (p q : Pod) : Prop :=
  p.apiVersion = q.apiVersion ∧ p.kind = q.kind ∧ p.metadata = q.metadata ∧
  p.spec.os = q.spec.os ∧
  List.Forall₂ Container.equivDoc p.spec.containers q.spec.containers

/-- An upper bound on the number of violations the validator can produce:
5 top-level checks, and per container at most 10 fixed-field violations
plus one per resource-map entry. -/
def podBound (p : Pod) : Nat :=
  5 + (p.spec.containers.map fun c =>
        10 + goMapLen c.resources.requests + goMapLen c.resources.limits).sum

/-! ### Concrete documents used by individual claims -/

/-- The spec §8 end-to-end document with image `myapp` (no registry prefix,
no tag) and container port `70000`; all other fields are the valid ones. -/
def c2doc : Pod :=
  { apiVersion := "v1", kind := "Pod"
    metadata := { name := "ok", nspace := "", labels := none }
    spec :=
      { os := none
        containers :=
          [{ name := "web", image := "myapp"
             ports := some { containerPort := 70000, protocol := "TCP" }
             readinessProbe := none
             livenessProbe := some { httpGet := { path := "/healthz", port := 8080 } }
             resources :=
               { requests := some [("cpu", "1"), ("memory", "256Mi")]
                 limits := none } }] } }

/-- A document whose single container's `resources.requests` map holds two
unknown keys, with its entries in the iteration order gpu-then-storage. -/
def c3docA : Pod :=
  { apiVersion := "v1", kind := "Pod"
    metadata := { name := "ok", nspace := "", labels := none }
    spec :=
      { os := none
        containers :=
          [{ name := "web", image := "registry.bigbrother.io/app:1.0"
             ports := none, readinessProbe := none, livenessProbe := none
             resources :=
               { requests := some [("gpu", "1"), ("storage", "1")]
                 limits := none } }] } }

/-- The same decoded document as `c3docA`, with the `requests` entries in
the other iteration order, storage-then-gpu. -/
def c3docB : Pod :=
  { apiVersion := "v1", kind := "Pod"
    metadata := { name := "ok", nspace := "", labels := none }
    spec :=
      { os := none
        containers :=
          [{ name := "web", image := "registry.bigbrother.io/app:1.0"
             ports := none, readinessProbe := none, livenessProbe := none
             resources :=
               { requests := some [("storage", "1"), ("gpu", "1")]
                 limits := none } }] } }

/-- A document whose top-level fields are all valid and whose container
sequence is empty. -/
def c6doc : Pod :=
  { apiVersion := "v1", kind := "Pod"
    metadata := { name := "ok", nspace := "", labels := none }
    spec := { os := none, containers := [] } }

/-- A fully-populated container used to instantiate hypothesis-bearing
theorems: every optional block present. -/
def fullContainer : Container :=
  { name := "web", image := "registry.bigbrother.io/app:1.0"
    ports := some { containerPort := 70000, protocol := "TCP" }
    readinessProbe := some { httpGet := { path := "/healthz", port := 0 } }
    livenessProbe := some { httpGet := { path := "/healthz", port := 8080 } }
    resources := { requests := some [("cpu", "1")], limits := none } }

/-- A container with every optional block absent and an invalid name. -/
def bareContainer : Container :=
  { name := "Web", image := ""
    ports := none, readinessProbe := none, livenessProbe := none
    resources := { requests := none, limits := none } }

/-! ### String helper lemmas

Violations are plain message strings; the lemmas below let us cancel the
shared `container[i]` prefix and distinguish messages by their leading
characters. -/

theorem app_left_cancel (a b c : String) (h : a ++ b = a ++ c) : b = c := by
  apply String.ext
  have hd := congrArg String.data h
  simp only [String.data_append] at hd
  exact List.append_cancel_left hd

theorem msgCtr_inj {i : Nat} {a b : String} (h : msgCtr i a = msgCtr i b) : a = b := by
  unfold msgCtr at h
  exact app_left_cancel _ _ _ h

theorem take_append_left {α : Type} (n : Nat) (l₁ l₂ : List α) (h : n ≤ l₁.length) :
    (l₁ ++ l₂).take n = l₁.take n := by
  simp [List.take_append_eq_append_take, Nat.sub_eq_zero_of_le h]

theorem msgCtr_head (i : Nat) (suf : String) : (msgCtr i suf).data.take 1 = ['c'] := by
  unfold msgCtr
  simp only [String.data_append, List.append_assoc]
  rw [take_append_left 1 _ _ (by decide)]
  decide

theorem msgCtr_ne_of_head {s : String} (hs : s.data.take 1 ≠ ['c']) (i : Nat) (suf : String) :
    msgCtr i suf ≠ s := by
  intro h
  exact hs (h ▸ msgCtr_head i suf)

theorem take4_res {l₂ : List Char} : ((".resources.").data ++ l₂).take 4 = ['.', 'r', 'e', 's'] := by
  rw [take_append_left 4 _ _ (by decide)]
  decide

/-! ### Shapes of the messages each validation block can emit -/

theorem mem_checkName {e : String} {i : Nat} {nm : String} (h : e ∈ checkName i nm) :
    e = msgCtr i ".name is required" ∨ e = msgCtr i ".name must be snake_case" := by
  unfold checkName at h
  split at h
  · simp at h; exact Or.inl h
  · split at h
    · simp at h; exact Or.inr h
    · simp at h

theorem mem_checkImage {e : String} {i : Nat} {img : String} (h : e ∈ checkImage i img) :
    e = msgCtr i ".image is required" ∨
    e = msgCtr i ".image must be from registry.bigbrother.io" ∨
    e = msgCtr i ".image must contain tag" := by
  unfold checkImage at h
  split at h
  · simp at h; exact Or.inl h
  · rw [List.mem_append] at h
    rcases h with h | h
    · split at h
      · simp at h; exact Or.inr (Or.inl h)
      · simp at h
    · split at h
      · simp at h; exact Or.inr (Or.inr h)
      · simp at h

theorem mem_checkPorts {e : String} {i : Nat} {po : Option ContainerPort}
    (h : e ∈ checkPorts i po) :
    e = msgCtr i ".ports.containerPort must be 1-65535" ∨
    e = msgCtr i ".ports.protocol must be TCP or UDP" := by
  unfold checkPorts at h
  cases po with
  | none => simp at h
  | some ps =>
    rw [List.mem_append] at h
    rcases h with h | h
    · split at h
      · simp at h; exact Or.inl h
      · simp at h
    · split at h
      · simp at h; exact Or.inr h
      · simp at h

theorem mem_probeValidate {e : String} {i : Nat} {t : String} {p : Probe}
    (h : e ∈ p.Validate i t) :
    e = msgCtr i ("." ++ t ++ ".httpGet.path is required") ∨
    e = msgCtr i ("." ++ t ++ ".httpGet.path must be absolute") ∨
    e = msgCtr i ("." ++ t ++ ".httpGet.port must be 1-65535") := by
  unfold Probe.Validate at h
  rw [List.mem_append] at h
  rcases h with h | h
  · split at h
    · simp at h; exact Or.inl h
    · split at h
      · simp at h; exact Or.inr (Or.inl h)
      · simp at h
  · split at h
    · simp at h; exact Or.inr (Or.inr h)
    · simp at h

theorem mem_checkProbe {e : String} {i : Nat} {t : String} {po : Option Probe}
    (h : e ∈ checkProbe i t po) :
    e = msgCtr i ("." ++ t ++ ".httpGet.path is required") ∨
    e = msgCtr i ("." ++ t ++ ".httpGet.path must be absolute") ∨
    e = msgCtr i ("." ++ t ++ ".httpGet.port must be 1-65535") := by
  cases po with
  | none => simp [checkProbe] at h
  | some p => exact mem_probeValidate h

theorem mem_vmap {e : String} {i : Nat} {f : String} {m : List (String × String)}
    (h : e ∈ validateResourceMap i m f) :
    ∃ suf, e = msgCtr i suf ∧ suf.data.take 4 = ['.', 'r', 'e', 's'] := by
  unfold validateResourceMap at h
  rw [List.mem_flatMap] at h
  obtain ⟨kv, _, h⟩ := h
  split at h
  · simp [goMatchDigits] at h
  · split at h
    · split at h
      · simp at h
        exact ⟨".resources." ++ f ++ ".memory must have units Gi, Mi or Ki", h, by
          simp only [String.data_append, List.append_assoc]; exact take4_res⟩
      · simp at h
    · simp at h
      exact ⟨".resources." ++ f ++ " contains unknown key '" ++ kv.1 ++ "'", h, by
        simp only [String.data_append, List.append_assoc]; exact take4_res⟩

theorem mem_rrValidate {e : String} {i : Nat} {r : ResourceRequirements}
    (h : e ∈ r.Validate i) :
    ∃ suf, e = msgCtr i suf ∧ suf.data.take 4 = ['.', 'r', 'e', 's'] := by
  unfold ResourceRequirements.Validate at h
  rw [List.mem_append] at h
  rcases h with h | h
  · cases hr : r.requests with
    | none => rw [hr] at h; simp at h
    | some m => rw [hr] at h; exact mem_vmap h
  · cases hr : r.limits with
    | none => rw [hr] at h; simp at h
    | some m => rw [hr] at h; exact mem_vmap h

theorem mem_checkResources {e : String} {i : Nat} {r : ResourceRequirements}
    (h : e ∈ checkResources i r) :
    ∃ suf, e = msgCtr i suf ∧ suf.data.take 4 = ['.', 'r', 'e', 's'] := by
  unfold checkResources at h
  split at h
  · simp at h
    exact ⟨".resources is required", h, by decide⟩
  · exact mem_rrValidate h

theorem mem_container_cases {e : String} {c : Container} {i : Nat}
    (h : e ∈ c.Validate i) :
    e ∈ checkName i c.name ∨ e ∈ checkImage i c.image ∨ e ∈ checkPorts i c.ports ∨
    e ∈ checkProbe i "readinessProbe" c.readinessProbe ∨
    e ∈ checkProbe i "livenessProbe" c.livenessProbe ∨
    e ∈ checkResources i c.resources := by
  unfold Container.Validate at h
  simp only [List.mem_append] at h
  tauto

theorem mem_container_shape {e : String} {c : Container} {i : Nat}
    (h : e ∈ c.Validate i) : ∃ suf, e = msgCtr i suf := by
  rcases mem_container_cases h with h | h | h | h | h | h
  · rcases mem_checkName h with h | h <;> exact ⟨_, h⟩
  · rcases mem_checkImage h with h | h | h <;> exact ⟨_, h⟩
  · rcases mem_checkPorts h with h | h <;> exact ⟨_, h⟩
  · rcases mem_checkProbe h with h | h | h <;> exact ⟨_, h⟩
  · rcases mem_checkProbe h with h | h | h <;> exact ⟨_, h⟩
  · obtain ⟨suf, he, _⟩ := mem_checkResources h; exact ⟨suf, he⟩

theorem mem_validateContainers {e : String} {n : Nat} {cs : List Container}
    (h : e ∈ validateContainers n cs) : ∃ i suf, e = msgCtr i suf := by
  induction cs generalizing n with
  | nil => simp [validateContainers] at h
  | cons hd tl ih =>
    rw [validateContainers, List.mem_append] at h
    rcases h with h | h
    · obtain ⟨suf, he⟩ := mem_container_shape h; exact ⟨n, suf, he⟩
    · exact ih h

/-! ### Claim theorems -/

/-- C1: the claim says the validator emits a cpu violation exactly when the
`cpu` value is not a digit string, with `"4.5"` and `"four"` flagged.  The
source instead tests the compile error of `regexp.MatchString` (always nil
for the constant pattern `^\d+$`), so the cpu branch never appends a
violation: a resources block whose maps hold only a `cpu` key validates to
the empty list for every value whatsoever. -/
theorem cpu_value_never_flagged (v w : String) (i : Nat) :
    ResourceRequirements.Validate
      { requests := some [("cpu", v)], limits := some [("cpu", w)] } i = [] := by
  simp [ResourceRequirements.Validate, validateResourceMap, goMatchDigits]

/-- C2 counterexample: the spec's document (valid except image `myapp` and
container port `70000`) yields three violations, not exactly two — a
prefix-less, tag-less image trips both image rules. -/
theorem c2doc_not_two_violations : (c2doc.Validate).length ≠ 2 := by decide

/-- C2 amended: that document yields exactly three violations — the two
image violations (registry prefix, then missing tag) followed by the
container-port violation; image violations still precede the port one. -/
theorem c2doc_three_violations_ordered :
    c2doc.Validate =
      [msgCtr 0 ".image must be from registry.bigbrother.io",
       msgCtr 0 ".image must contain tag",
       msgCtr 0 ".ports.containerPort must be 1-65535"] := by decide

/-- The container loop visits containers in index order starting at `n`. -/
theorem validateContainers_eq_enumFrom (n : Nat) (cs : List Container) :
    validateContainers n cs = (cs.enumFrom n).flatMap fun ic => ic.2.Validate ic.1 := by
  induction cs generalizing n with
  | nil => simp [validateContainers]
  | cons hd tl ih => simp [validateContainers, List.enumFrom, ih]

/-- C4: the violation list decomposes, in order, into the five top-level
checks (apiVersion, kind, metadata.name, containers non-empty, spec.os),
then each container's violations in container-index order, and within one
container in the order name, image, port, readinessProbe, livenessProbe,
resources. -/
theorem validate_ordered_decomposition (p : Pod) :
    p.Validate =
      checkApiVersion p.apiVersion ++ checkKind p.kind ++
      checkMetadataName p.metadata.name ++ checkContainersNonEmpty p.spec.containers ++
      checkOS p.spec.os ++
      (p.spec.containers.enum.flatMap fun ic =>
        checkName ic.1 ic.2.name ++ checkImage ic.1 ic.2.image ++
        checkPorts ic.1 ic.2.ports ++
        checkProbe ic.1 "readinessProbe" ic.2.readinessProbe ++
        checkProbe ic.1 "livenessProbe" ic.2.livenessProbe ++
        checkResources ic.1 ic.2.resources) := by
  have h := validateContainers_eq_enumFrom 0 p.spec.containers
  unfold Pod.Validate checkApiVersion checkKind checkMetadataName checkContainersNonEmpty checkOS
  rw [h]
  rfl

/-- C6: when the top-level fields are valid (apiVersion `v1`, kind `Pod`,
non-empty metadata.name, no spec.os) and the container sequence is empty,
the validator returns exactly the single containers-must-not-be-empty
violation; the per-container loop contributes nothing. -/
theorem empty_containers_single_violation (p : Pod)
    (h1 : p.apiVersion = "v1") (h2 : p.kind = "Pod") (h3 : p.metadata.name ≠ "")
    (h4 : p.spec.os = none) (h5 : p.spec.containers = []) :
    p.Validate = ["spec.containers must not be empty"] := by
  simp [Pod.Validate, h1, h2, h3, h4, h5, validateContainers]

theorem empty_containers_single_violation_witness :
    c6doc.Validate = ["spec.containers must not be empty"] :=
  empty_containers_single_violation c6doc rfl rfl (by decide) rfl rfl

/-- C9: `ContainerPort.containerPort` is a plain integer with no absent
state (an omitted field decodes to `0`), and whenever a present ports block
carries `containerPort = 0` the range violation is emitted — an omitted
containerPort inside a present ports block is always reported out of
range, exactly like an explicit `0`. -/
theorem containerPort_zero_flagged (c : Container) (i : Nat) (ps : ContainerPort)
    (hp : c.ports = some ps) (h0 : ps.containerPort = 0) :
    msgCtr i ".ports.containerPort must be 1-65535" ∈ c.Validate i := by
  have hmem : msgCtr i ".ports.containerPort must be 1-65535" ∈ checkPorts i c.ports := by
    rw [hp]
    simp [checkPorts, h0]
  unfold Container.Validate
  simp only [List.mem_append]
  tauto

theorem containerPort_zero_flagged_witness :
    msgCtr 0 ".ports.containerPort must be 1-65535" ∈ Container.Validate
      { name := "web", image := "", ports := some { containerPort := 0, protocol := "" }
        readinessProbe := none, livenessProbe := none
        resources := { requests := none, limits := none } } 0 :=
  containerPort_zero_flagged _ 0 _ rfl rfl

/-! ### Map-iteration-order machinery (claim C3) -/

theorem mapEquiv_len {a b : Option (List (String × String))} (h : mapEquiv a b) :
    goMapLen a = goMapLen b := by
  cases a <;> cases b <;> simp [mapEquiv, goMapLen] at h ⊢
  exact h.length_eq

theorem vmap_perm {m₁ m₂ : List (String × String)} (i : Nat) (f : String)
    (h : m₁.Perm m₂) :
    (validateResourceMap i m₁ f).Perm (validateResourceMap i m₂ f) := by
  unfold validateResourceMap
  exact List.Perm.flatMap_right _ h

theorem rr_perm {r₁ r₂ : ResourceRequirements} (i : Nat)
    (hq : mapEquiv r₁.requests r₂.requests) (hl : mapEquiv r₁.limits r₂.limits) :
    (r₁.Validate i).Perm (r₂.Validate i) := by
  unfold ResourceRequirements.Validate
  apply List.Perm.append
  · rcases h₁ : r₁.requests with _ | m₁ <;> rcases h₂ : r₂.requests with _ | m₂ <;>
      rw [h₁, h₂] at hq <;> simp only [mapEquiv] at hq <;>
      first
        | exact List.Perm.refl _
        | exact vmap_perm i "requests" hq
  · rcases h₁ : r₁.limits with _ | m₁ <;> rcases h₂ : r₂.limits with _ | m₂ <;>
      rw [h₁, h₂] at hl <;> simp only [mapEquiv] at hl <;>
      first
        | exact List.Perm.refl _
        | exact vmap_perm i "limits" hl

theorem checkResources_perm {r₁ r₂ : ResourceRequirements} (i : Nat)
    (hq : mapEquiv r₁.requests r₂.requests) (hl : mapEquiv r₁.limits r₂.limits) :
    (checkResources i r₁).Perm (checkResources i r₂) := by
  unfold checkResources
  rw [mapEquiv_len hq, mapEquiv_len hl]
  split
  · exact List.Perm.refl _
  · exact rr_perm i hq hl

theorem container_perm {c d : Container} (i : Nat) (h : c.equivDoc d) :
    (c.Validate i).Perm (d.Validate i) := by
  obtain ⟨hn, hi, hp, hr, hl, hrq, hlm⟩ := h
  unfold Container.Validate
  rw [hn, hi, hp, hr, hl]
  exact List.Perm.append (List.Perm.refl _) (checkResources_perm i hrq hlm)

theorem containers_perm {cs ds : List Container}
    (h : List.Forall₂ Container.equivDoc cs ds) (n : Nat) :
    (validateContainers n cs).Perm (validateContainers n ds) := by
  induction h generalizing n with
  | nil => simp [validateContainers]
  | cons hcd _ ih =>
    simp only [validateContainers]
    exact List.Perm.append (container_perm n hcd) (ih (n + 1))

/-- C3 counterexample: `c3docA` and `c3docB` are the same decoded document
(their only resource map holds the same two entries, presented in the two
iteration orders a Go map may expose), yet the validator returns different
violation lists for them — so validation is not a function of the decoded
document alone. -/
theorem same_map_different_order_differs :
    Pod.equivDoc c3docA c3docB ∧ c3docA.Validate ≠ c3docB.Validate := by
  constructor
  · refine ⟨rfl, rfl, rfl, rfl, ?_⟩
    refine List.Forall₂.cons ⟨rfl, rfl, rfl, rfl, rfl, ?_, ?_⟩ List.Forall₂.nil
    · exact List.Perm.swap _ _ _
    · exact trivial
  · decide

/-- C3 amended: validating the same decoded document twice yields violation
lists that are permutations of each other (equal as multisets); the two
runs may order violations arising from one resource map differently, since
Go map iteration order is unspecified. -/
theorem validate_perm_of_equivDoc (p q : Pod) (h : p.equivDoc q) :
    (p.Validate).Perm (q.Validate) := by
  obtain ⟨ha, hk, hm, ho, hcs⟩ := h
  unfold Pod.Validate
  rw [ha, hk, hm, ho, hcs.length_eq]
  exact List.Perm.append (List.Perm.refl _) (containers_perm hcs 0)

theorem validate_perm_of_equivDoc_witness :
    (c3docA.Validate).Perm (c3docB.Validate) := by
  apply validate_perm_of_equivDoc
  exact ⟨rfl, rfl, rfl, rfl,
    List.Forall₂.cons ⟨rfl, rfl, rfl, rfl, rfl, List.Perm.swap _ _ _, trivial⟩
      List.Forall₂.nil⟩

/-! ### Output-size bounds (claim C10) -/

theorem checkName_len (i : Nat) (nm : String) : (checkName i nm).length ≤ 1 := by
  unfold checkName
  split
  · simp
  · split <;> simp

theorem checkImage_len (i : Nat) (img : String) : (checkImage i img).length ≤ 2 := by
  unfold checkImage
  split
  · simp
  · rw [List.length_append]
    have h1 : (if !goHasPrefix img "registry.bigbrother.io/" then
        [msgCtr i ".image must be from registry.bigbrother.io"] else []).length ≤ 1 := by
      split <;> simp
    have h2 : (if !goContainsChar img ':' then
        [msgCtr i ".image must contain tag"] else []).length ≤ 1 := by
      split <;> simp
    omega

theorem checkPorts_len (i : Nat) (po : Option ContainerPort) :
    (checkPorts i po).length ≤ 2 := by
  unfold checkPorts
  cases po with
  | none => simp
  | some ps =>
    rw [List.length_append]
    have h1 : (if ps.containerPort ≤ 0 ∨ ps.containerPort ≥ 65536 then
        [msgCtr i ".ports.containerPort must be 1-65535"] else []).length ≤ 1 := by
      split <;> simp
    have h2 : (if ps.protocol ≠ "" ∧ ps.protocol ≠ "TCP" ∧ ps.protocol ≠ "UDP" then
        [msgCtr i ".ports.protocol must be TCP or UDP"] else []).length ≤ 1 := by
      split <;> simp
    omega

theorem checkProbe_len (i : Nat) (t : String) (po : Option Probe) :
    (checkProbe i t po).length ≤ 2 := by
  cases po with
  | none => simp [checkProbe]
  | some p =>
    show (p.Validate i t).length ≤ 2
    unfold Probe.Validate
    rw [List.length_append]
    have h1 : (if p.httpGet.path = "" then
        [msgCtr i ("." ++ t ++ ".httpGet.path is required")]
      else if !goHasPrefix p.httpGet.path "/" then
        [msgCtr i ("." ++ t ++ ".httpGet.path must be absolute")]
      else []).length ≤ 1 := by
      split
      · simp
      · split <;> simp
    have h2 : (if p.httpGet.port ≤ 0 ∨ p.httpGet.port ≥ 65536 then
        [msgCtr i ("." ++ t ++ ".httpGet.port must be 1-65535")] else []).length ≤ 1 := by
      split <;> simp
    omega

theorem vmap_len (i : Nat) (f : String) (m : List (String × String)) :
    (validateResourceMap i m f).length ≤ m.length := by
  unfold validateResourceMap
  induction m with
  | nil => simp
  | cons kv tl ih =>
    rw [List.flatMap_cons, List.length_append]
    have h1 : (if kv.1 = "cpu" then
        match goMatchDigits kv.2 with
        | (_, some _) => [msgCtr i (".resources." ++ f ++ ".cpu must be integer")]
        | (_, none) => []
      else if kv.1 = "memory" then
        if !matchMemory kv.2 then
          [msgCtr i (".resources." ++ f ++ ".memory must have units Gi, Mi or Ki")]
        else []
      else
        [msgCtr i (".resources." ++ f ++ " contains unknown key '" ++ kv.1 ++ "'")]).length ≤ 1 := by
      split
      · simp [goMatchDigits]
      · split
        · split <;> simp
        · simp
    simp only [List.length_cons]
    omega

theorem rrValidate_len (r : ResourceRequirements) (i : Nat) :
    (r.Validate i).length ≤ goMapLen r.requests + goMapLen r.limits := by
  unfold ResourceRequirements.Validate
  rw [List.length_append]
  have h1 : (match r.requests with
      | some m => validateResourceMap i m "requests"
      | none => []).length ≤ goMapLen r.requests := by
    cases r.requests with
    | none => simp [goMapLen]
    | some m => simpa [goMapLen] using vmap_len i "requests" m
  have h2 : (match r.limits with
      | some m => validateResourceMap i m "limits"
      | none => []).length ≤ goMapLen r.limits := by
    cases r.limits with
    | none => simp [goMapLen]
    | some m => simpa [goMapLen] using vmap_len i "limits" m
  omega

theorem checkResources_len (i : Nat) (r : ResourceRequirements) :
    (checkResources i r).length ≤ 1 + goMapLen r.requests + goMapLen r.limits := by
  unfold checkResources
  split
  · simp
    omega
  · have := rrValidate_len r i
    omega

theorem container_len (c : Container) (i : Nat) :
    (c.Validate i).length ≤
      10 + goMapLen c.resources.requests + goMapLen c.resources.limits := by
  unfold Container.Validate
  simp only [List.length_append]
  have h1 := checkName_len i c.name
  have h2 := checkImage_len i c.image
  have h3 := checkPorts_len i c.ports
  have h4 := checkProbe_len i "readinessProbe" c.readinessProbe
  have h5 := checkProbe_len i "livenessProbe" c.livenessProbe
  have h6 := checkResources_len i c.resources
  omega

theorem validateContainers_len (cs : List Container) (n : Nat) :
    (validateContainers n cs).length ≤
      (cs.map fun c =>
        10 + goMapLen c.resources.requests + goMapLen c.resources.limits).sum := by
  induction cs generalizing n with
  | nil => simp [validateContainers]
  | cons hd tl ih =>
    simp only [validateContainers, List.length_append, List.map_cons, List.sum_cons]
    have h1 := container_len hd n
    have h2 := ih (n + 1)
    omega

/-- C10: the validator is total — for every decoded `Pod` value, including
ones whose `spec.os`, ports block, probes, and resource maps are all
absent (`none`), validation produces a finite violation list, bounded by
five top-level violations plus, per container, ten fixed-field violations
and one per resource-map entry.  Every optional component is consumed
through a presence match, never unconditionally. -/
theorem validate_total_bound (p : Pod) : (p.Validate).length ≤ podBound p := by
  unfold Pod.Validate podBound
  simp only [List.length_append]
  have t1 : (if p.apiVersion ≠ "v1" then ["apiVersion must be 'v1'"] else []).length ≤ 1 := by
    split <;> simp
  have t2 : (if p.kind ≠ "Pod" then ["kind must be 'Pod'"] else []).length ≤ 1 := by
    split <;> simp
  have t3 : (if p.metadata.name = "" then ["metadata.name is required"] else []).length ≤ 1 := by
    split <;> simp
  have t4 : (if p.spec.containers.length = 0 then
      ["spec.containers must not be empty"] else []).length ≤ 1 := by
    split <;> simp
  have t5g : ∀ o : Option PodOS, (match o with
      | none => []
      | some os =>
        if os.name ≠ "linux" ∧ os.name ≠ "windows" then
          ["spec.os.name must be 'linux' or 'windows'"]
        else []).length ≤ 1 := by
    intro o
    cases o with
    | none => simp
    | some os => dsimp only; split <;> simp
  have t5 := t5g p.spec.os
  have t6 := validateContainers_len p.spec.containers 0
  omega

/-! ### Exclusion helpers: which messages a container's output cannot hold -/

theorem not_mem_checkPorts {i : Nat} {po : Option ContainerPort} {suf : String}
    (h1 : suf ≠ ".ports.containerPort must be 1-65535")
    (h2 : suf ≠ ".ports.protocol must be TCP or UDP") :
    msgCtr i suf ∉ checkPorts i po := by
  intro h
  rcases mem_checkPorts h with h | h
  · exact h1 (msgCtr_inj h)
  · exact h2 (msgCtr_inj h)

theorem not_mem_checkProbe {i : Nat} {t : String} {po : Option Probe} {suf : String}
    (h1 : suf ≠ "." ++ t ++ ".httpGet.path is required")
    (h2 : suf ≠ "." ++ t ++ ".httpGet.path must be absolute")
    (h3 : suf ≠ "." ++ t ++ ".httpGet.port must be 1-65535") :
    msgCtr i suf ∉ checkProbe i t po := by
  intro h
  rcases mem_checkProbe h with h | h | h
  · exact h1 (msgCtr_inj h)
  · exact h2 (msgCtr_inj h)
  · exact h3 (msgCtr_inj h)

theorem not_mem_container (c : Container) (i : Nat) (suf : String)
    (h1 : suf ≠ ".name is required") (h2 : suf ≠ ".name must be snake_case")
    (h3 : suf ≠ ".image is required")
    (h4 : suf ≠ ".image must be from registry.bigbrother.io")
    (h5 : suf ≠ ".image must contain tag")
    (h6 : msgCtr i suf ∉ checkPorts i c.ports)
    (h7 : msgCtr i suf ∉ checkProbe i "readinessProbe" c.readinessProbe)
    (h8 : msgCtr i suf ∉ checkProbe i "livenessProbe" c.livenessProbe)
    (h9 : suf.data.take 4 ≠ ['.', 'r', 'e', 's']) :
    msgCtr i suf ∉ c.Validate i := by
  intro h
  rcases mem_container_cases h with h | h | h | h | h | h
  · rcases mem_checkName h with h | h
    · exact h1 (msgCtr_inj h)
    · exact h2 (msgCtr_inj h)
  · rcases mem_checkImage h with h | h | h
    · exact h3 (msgCtr_inj h)
    · exact h4 (msgCtr_inj h)
    · exact h5 (msgCtr_inj h)
  · exact h6 h
  · exact h7 h
  · exact h8 h
  · obtain ⟨s, he, ht⟩ := mem_checkResources h
    apply h9
    rw [msgCtr_inj he]
    exact ht

/-- C5: no violation is emitted about a structurally-absent optional
component: a nil `spec.os` yields no os violation, a nil ports block yields
no port violations for that container, and a nil probe yields none of that
probe's violations. -/
theorem absent_optionals_no_violation (p : Pod) (c : Container) (i : Nat) :
    (p.spec.os = none → "spec.os.name must be 'linux' or 'windows'" ∉ p.Validate) ∧
    (c.ports = none →
      msgCtr i ".ports.containerPort must be 1-65535" ∉ c.Validate i ∧
      msgCtr i ".ports.protocol must be TCP or UDP" ∉ c.Validate i) ∧
    (c.readinessProbe = none →
      msgCtr i ("." ++ "readinessProbe" ++ ".httpGet.path is required") ∉ c.Validate i ∧
      msgCtr i ("." ++ "readinessProbe" ++ ".httpGet.path must be absolute") ∉ c.Validate i ∧
      msgCtr i ("." ++ "readinessProbe" ++ ".httpGet.port must be 1-65535") ∉ c.Validate i) ∧
    (c.livenessProbe = none →
      msgCtr i ("." ++ "livenessProbe" ++ ".httpGet.path is required") ∉ c.Validate i ∧
      msgCtr i ("." ++ "livenessProbe" ++ ".httpGet.path must be absolute") ∉ c.Validate i ∧
      msgCtr i ("." ++ "livenessProbe" ++ ".httpGet.port must be 1-65535") ∉ c.Validate i) := by
  refine ⟨?_, ?_, ?_, ?_⟩
  · intro ho h
    unfold Pod.Validate at h
    rw [ho] at h
    simp only [List.mem_append] at h
    rcases h with ((((h | h) | h) | h) | h) | h
    · split at h <;> simp_all
    · split at h <;> simp_all
    · split at h <;> simp_all
    · split at h <;> simp_all
    · simp at h
    · obtain ⟨j, suf, he⟩ := mem_validateContainers h
      exact msgCtr_ne_of_head (by decide) j suf he.symm
  · intro hp
    constructor
    · refine not_mem_container c i _ (by decide) (by decide) (by decide) (by decide)
        (by decide) ?_ (not_mem_checkProbe (by decide) (by decide) (by decide))
        (not_mem_checkProbe (by decide) (by decide) (by decide)) (by decide)
      rw [hp]
      simp [checkPorts]
    · refine not_mem_container c i _ (by decide) (by decide) (by decide) (by decide)
        (by decide) ?_ (not_mem_checkProbe (by decide) (by decide) (by decide))
        (not_mem_checkProbe (by decide) (by decide) (by decide)) (by decide)
      rw [hp]
      simp [checkPorts]
  · intro hr
    refine ⟨?_, ?_, ?_⟩ <;>
      refine not_mem_container c i _ (by decide) (by decide) (by decide) (by decide)
        (by decide) (not_mem_checkPorts (by decide) (by decide)) ?_
        (not_mem_checkProbe (by decide) (by decide) (by decide)) (by decide) <;>
      · rw [hr]
        simp [checkProbe]
  · intro hl
    refine ⟨?_, ?_, ?_⟩ <;>
      refine not_mem_container c i _ (by decide) (by decide) (by decide) (by decide)
        (by decide) (not_mem_checkPorts (by decide) (by decide))
        (not_mem_checkProbe (by decide) (by decide) (by decide)) ?_ (by decide) <;>
      · rw [hl]
        simp [checkProbe]

theorem absent_optionals_no_violation_witness :
    ("spec.os.name must be 'linux' or 'windows'" ∉ c6doc.Validate) ∧
    (msgCtr 0 ".ports.containerPort must be 1-65535" ∉ bareContainer.Validate 0) ∧
    (msgCtr 0 ("." ++ "readinessProbe" ++ ".httpGet.port must be 1-65535") ∉
      bareContainer.Validate 0) ∧
    (msgCtr 0 ("." ++ "livenessProbe" ++ ".httpGet.port must be 1-65535") ∉
      bareContainer.Validate 0) := by
  obtain ⟨h1, h2, h3, h4⟩ := absent_optionals_no_violation c6doc bareContainer 0
  exact ⟨h1 rfl, (h2 rfl).1, (h3 rfl).2.2, (h4 rfl).2.2⟩

/-! ### Port-range characterizations (claims C7) -/

theorem range_mem_checkPorts_iff (i : Nat) (ps : ContainerPort) :
    msgCtr i ".ports.containerPort must be 1-65535" ∈ checkPorts i (some ps) ↔
      ps.containerPort ≤ 0 ∨ ps.containerPort ≥ 65536 := by
  have hne : (".ports.containerPort must be 1-65535" : String) ≠
      ".ports.protocol must be TCP or UDP" := by decide
  unfold checkPorts
  rw [List.mem_append]
  constructor
  · rintro (h | h)
    · by_cases hc : ps.containerPort ≤ 0 ∨ ps.containerPort ≥ 65536
      · exact hc
      · rw [if_neg hc] at h
        simp at h
    · split at h
      · simp at h
        exact absurd (msgCtr_inj h) hne
      · simp at h
  · intro hc
    left
    rw [if_pos hc]
    simp

theorem port_mem_probeValidate_iff (i : Nat) (t : String) (pr : Probe) :
    msgCtr i ("." ++ t ++ ".httpGet.port must be 1-65535") ∈ pr.Validate i t ↔
      pr.httpGet.port ≤ 0 ∨ pr.httpGet.port ≥ 65536 := by
  have hne1 : ("." ++ t ++ ".httpGet.port must be 1-65535" : String) ≠
      "." ++ t ++ ".httpGet.path is required" := fun h =>
    absurd (app_left_cancel ("." ++ t) _ _ h) (by decide)
  have hne2 : ("." ++ t ++ ".httpGet.port must be 1-65535" : String) ≠
      "." ++ t ++ ".httpGet.path must be absolute" := fun h =>
    absurd (app_left_cancel ("." ++ t) _ _ h) (by decide)
  unfold Probe.Validate
  rw [List.mem_append]
  constructor
  · rintro (h | h)
    · split at h
      · simp at h
        exact absurd (msgCtr_inj h) hne1
      · split at h
        · simp at h
          exact absurd (msgCtr_inj h) hne2
        · simp at h
    · by_cases hc : pr.httpGet.port ≤ 0 ∨ pr.httpGet.port ≥ 65536
      · exact hc
      · rw [if_neg hc] at h
        simp at h
  · intro hc
    right
    rw [if_pos hc]
    simp

/-- C7: for a present ports block and for each present probe, the range
violation for that port is in the container's violation list exactly when
the port value is at most 0 or at least 65536; every value in 1..65535
produces no range violation. -/
theorem port_range_violation_iff (c : Container) (i : Nat) :
    (∀ ps, c.ports = some ps →
      (msgCtr i ".ports.containerPort must be 1-65535" ∈ c.Validate i ↔
        ps.containerPort ≤ 0 ∨ ps.containerPort ≥ 65536)) ∧
    (∀ pr, c.readinessProbe = some pr →
      (msgCtr i ("." ++ "readinessProbe" ++ ".httpGet.port must be 1-65535") ∈
          c.Validate i ↔
        pr.httpGet.port ≤ 0 ∨ pr.httpGet.port ≥ 65536)) ∧
    (∀ pr, c.livenessProbe = some pr →
      (msgCtr i ("." ++ "livenessProbe" ++ ".httpGet.port must be 1-65535") ∈
          c.Validate i ↔
        pr.httpGet.port ≤ 0 ∨ pr.httpGet.port ≥ 65536)) := by
  refine ⟨?_, ?_, ?_⟩
  · intro ps hp
    constructor
    · intro h
      rcases mem_container_cases h with h | h | h | h | h | h
      · rcases mem_checkName h with h | h <;> exact absurd (msgCtr_inj h) (by decide)
      · rcases mem_checkImage h with h | h | h <;> exact absurd (msgCtr_inj h) (by decide)
      · rw [hp] at h
        exact (range_mem_checkPorts_iff i ps).mp h
      · rcases mem_checkProbe h with h | h | h <;> exact absurd (msgCtr_inj h) (by decide)
      · rcases mem_checkProbe h with h | h | h <;> exact absurd (msgCtr_inj h) (by decide)
      · obtain ⟨s, he, ht⟩ := mem_checkResources h
        rw [← msgCtr_inj he] at ht
        exact absurd ht (by decide)
    · intro hc
      have hm := (range_mem_checkPorts_iff i ps).mpr hc
      rw [← hp] at hm
      unfold Container.Validate
      simp only [List.mem_append]
      tauto
  · intro pr hr
    constructor
    · intro h
      rcases mem_container_cases h with h | h | h | h | h | h
      · rcases mem_checkName h with h | h <;> exact absurd (msgCtr_inj h) (by decide)
      · rcases mem_checkImage h with h | h | h <;> exact absurd (msgCtr_inj h) (by decide)
      · rcases mem_checkPorts h with h | h <;> exact absurd (msgCtr_inj h) (by decide)
      · rw [hr] at h
        simp only [checkProbe] at h
        exact (port_mem_probeValidate_iff i "readinessProbe" pr).mp h
      · rcases mem_checkProbe h with h | h | h <;> exact absurd (msgCtr_inj h) (by decide)
      · obtain ⟨s, he, ht⟩ := mem_checkResources h
        rw [← msgCtr_inj he] at ht
        exact absurd ht (by decide)
    · intro hc
      have hm := (port_mem_probeValidate_iff i "readinessProbe" pr).mpr hc
      have hm' : msgCtr i ("." ++ "readinessProbe" ++ ".httpGet.port must be 1-65535") ∈
          checkProbe i "readinessProbe" c.readinessProbe := by
        rw [hr]
        exact hm
      unfold Container.Validate
      simp only [List.mem_append]
      tauto
  · intro pr hl
    constructor
    · intro h
      rcases mem_container_cases h with h | h | h | h | h | h
      · rcases mem_checkName h with h | h <;> exact absurd (msgCtr_inj h) (by decide)
      · rcases mem_checkImage h with h | h | h <;> exact absurd (msgCtr_inj h) (by decide)
      · rcases mem_checkPorts h with h | h <;> exact absurd (msgCtr_inj h) (by decide)
      · rcases mem_checkProbe h with h | h | h <;> exact absurd (msgCtr_inj h) (by decide)
      · rw [hl] at h
        simp only [checkProbe] at h
        exact (port_mem_probeValidate_iff i "livenessProbe" pr).mp h
      · obtain ⟨s, he, ht⟩ := mem_checkResources h
        rw [← msgCtr_inj he] at ht
        exact absurd ht (by decide)
    · intro hc
      have hm := (port_mem_probeValidate_iff i "livenessProbe" pr).mpr hc
      have hm' : msgCtr i ("." ++ "livenessProbe" ++ ".httpGet.port must be 1-65535") ∈
          checkProbe i "livenessProbe" c.livenessProbe := by
        rw [hl]
        exact hm
      unfold Container.Validate
      simp only [List.mem_append]
      tauto

theorem port_range_violation_iff_witness :
    (msgCtr 0 ".ports.containerPort must be 1-65535" ∈ fullContainer.Validate 0) ∧
    (msgCtr 0 ("." ++ "readinessProbe" ++ ".httpGet.port must be 1-65535") ∈
      fullContainer.Validate 0) ∧
    (msgCtr 0 ("." ++ "livenessProbe" ++ ".httpGet.port must be 1-65535") ∉
      fullContainer.Validate 0) := by
  obtain ⟨h1, h2, h3⟩ := port_range_violation_iff fullContainer 0
  refine ⟨(h1 _ rfl).mpr (by decide), (h2 _ rfl).mpr (by decide), fun hmem => ?_⟩
  exact absurd ((h3 _ rfl).mp hmem) (by decide)

/-! ### Name-pattern characterization (claim C8) -/

theorem snake_mem_checkName_iff (i : Nat) (nm : String) (hn : nm ≠ "") :
    msgCtr i ".name must be snake_case" ∈ checkName i nm ↔
      ∃ ch ∈ nm.data, snakeChar ch = false := by
  have hd : nm.data ≠ [] := fun h => hn (String.ext (by rw [h]))
  unfold checkName
  rw [if_neg hn]
  constructor
  · intro h
    split at h
    case isTrue hm =>
      have hms : matchSnake nm = false := by simpa using hm
      unfold matchSnake at hms
      have hie : nm.data.isEmpty = false := by
        cases hl : nm.data with
        | nil => exact absurd hl hd
        | cons a l => rfl
      rw [hie] at hms
      simp at hms
      simpa using hms
    case isFalse => simp at h
  · intro hex
    obtain ⟨ch, hch, hbad⟩ := hex
    have hall : nm.data.all snakeChar = false :=
      List.all_eq_false.mpr ⟨ch, hch, by simp [hbad]⟩
    have hms : matchSnake nm = false := by
      unfold matchSnake
      rw [hall]
      simp
    simp [hms]

/-- C8: for a non-empty container name, the name-pattern violation is in
the container's violation list exactly when the name holds a character
outside lowercase ASCII letters, digits and underscore, and the
name-required violation never fires; the empty name always yields the
name-required violation. -/
theorem name_violation_characterization (c : Container) (i : Nat) :
    (c.name = "" → msgCtr i ".name is required" ∈ c.Validate i) ∧
    (c.name ≠ "" →
      ((msgCtr i ".name must be snake_case" ∈ c.Validate i) ↔
        ∃ ch ∈ c.name.data, snakeChar ch = false) ∧
      msgCtr i ".name is required" ∉ c.Validate i) := by
  constructor
  · intro hn
    have hm : msgCtr i ".name is required" ∈ checkName i c.name := by
      unfold checkName
      rw [if_pos hn]
      simp
    unfold Container.Validate
    simp only [List.mem_append]
    tauto
  · intro hn
    refine ⟨⟨?_, ?_⟩, ?_⟩
    · intro h
      rcases mem_container_cases h with h | h | h | h | h | h
      · exact (snake_mem_checkName_iff i c.name hn).mp h
      · rcases mem_checkImage h with h | h | h <;> exact absurd (msgCtr_inj h) (by decide)
      · rcases mem_checkPorts h with h | h <;> exact absurd (msgCtr_inj h) (by decide)
      · rcases mem_checkProbe h with h | h | h <;> exact absurd (msgCtr_inj h) (by decide)
      · rcases mem_checkProbe h with h | h | h <;> exact absurd (msgCtr_inj h) (by decide)
      · obtain ⟨s, he, ht⟩ := mem_checkResources h
        rw [← msgCtr_inj he] at ht
        exact absurd ht (by decide)
    · intro hex
      have hm := (snake_mem_checkName_iff i c.name hn).mpr hex
      unfold Container.Validate
      simp only [List.mem_append]
      tauto
    · intro h
      rcases mem_container_cases h with h | h | h | h | h | h
      · unfold checkName at h
        rw [if_neg hn] at h
        split at h
        · simp at h
          exact absurd (msgCtr_inj h) (by decide)
        · simp at h
      · rcases mem_checkImage h with h | h | h <;> exact absurd (msgCtr_inj h) (by decide)
      · rcases mem_checkPorts h with h | h <;> exact absurd (msgCtr_inj h) (by decide)
      · rcases mem_checkProbe h with h | h | h <;> exact absurd (msgCtr_inj h) (by decide)
      · rcases mem_checkProbe h with h | h | h <;> exact absurd (msgCtr_inj h) (by decide)
      · obtain ⟨s, he, ht⟩ := mem_checkResources h
        rw [← msgCtr_inj he] at ht
        exact absurd ht (by decide)

theorem name_violation_characterization_witness :
    (msgCtr 0 ".name must be snake_case" ∈ bareContainer.Validate 0) ∧
    (msgCtr 0 ".name is required" ∉ bareContainer.Validate 0) ∧
    (msgCtr 0 ".name is required" ∈ Container.Validate
      { name := "", image := "", ports := none, readinessProbe := none
        livenessProbe := none
        resources := { requests := none, limits := none } } 0) := by
  obtain ⟨h1, h2⟩ := name_violation_characterization bareContainer 0
  obtain ⟨hiff, hreq⟩ := h2 (by decide)
  refine ⟨hiff.mpr ⟨'W', by decide, by decide⟩, hreq, ?_⟩
  exact (name_violation_characterization _ 0).1 rfl

end YamlValid
